import Mathlib

/-!
Verification development for the center-point marking tool (`src/main.py`).

The Python program is a single-window annotation tool.  Its core logic is
embedded here as executable Lean definitions:

* `calculate_centroid` — `AnnotationTool.calculate_centroid`, which calls
  `cv2.moments` on the vertex list (treated as a closed polygon contour)
  and truncates `m10/m00`, `m01/m00` with Python `int()`.  OpenCV's
  `contourMoments` accumulates the Green-formula sums
  `a00 = Σ (x_i·y_{i+1} − x_{i+1}·y_i)` (cyclically),
  `a10 = Σ dxy·(x_i + x_{i+1})`, `a01 = Σ dxy·(y_i + y_{i+1})` and then
  normalises the sign: `m00 = a00/2` is made nonnegative and `m10 = a10/6`,
  `m01 = a01/6` receive the same sign flip.  Integer pixel inputs keep all
  of this exact, so the embedding works over `ℤ` and `ℚ`.
* `set_zoom` / `adjust_zoom` — `ZoomableLabel.set_zoom` and
  `AnnotationTool.adjust_zoom`.
* coordinate mapping — `ZoomableLabel.handle_click` together with the
  display rectangle computed by `AnnotationTool.update_display`.
* the annotation state machine — `add_polygon_point`, `finish_polygon`,
  `prev_image`, `next_image`, and the CSV export of `save_centroids`.
-/

namespace Marking

/-- A point with integer pixel coordinates, as used throughout `main.py`. -/
abbrev Pt := Int × Int

/-! ## Centroid engine: `AnnotationTool.calculate_centroid` (main.py:390-398) -/

/-- The cross term `x_i * y_{i+1} - x_{i+1} * y_i` of one polygon edge
(`dxy` in OpenCV's `contourMoments`). -/
def cross (p q : Pt) : Int := p.1 * q.2 - q.1 * p.2

/-- The closed-path edge list of a vertex sequence: consecutive pairs plus the
wrap-around edge from the last vertex back to the first. -/
def edges : List Pt → List (Pt × Pt)
  | [] => []
  | p :: ps => (p :: ps).zip (ps ++ [p])

/-- Twice the signed area: `Σ dxy` over the closed path. -/
def a00 (pts : List Pt) : Int := ((edges pts).map fun e => cross e.1 e.2).sum

/-- Six times the signed x first moment: `Σ dxy·(x_i + x_{i+1})`. -/
def a10 (pts : List Pt) : Int :=
  ((edges pts).map fun e => cross e.1 e.2 * (e.1.1 + e.2.1)).sum

/-- Six times the signed y first moment: `Σ dxy·(y_i + y_{i+1})`. -/
def a01 (pts : List Pt) : Int :=
  ((edges pts).map fun e => cross e.1 e.2 * (e.1.2 + e.2.2)).sum

/-- Python's `int()` applied to a real value: truncation toward zero. -/
def ratTrunc (q : ℚ) : Int := if 0 ≤ q then ⌊q⌋ else ⌈q⌉

/-- `cv2.moments(...)["m00"]`: the sign-normalised (nonnegative) area.
OpenCV leaves all moments zero when `a00 = 0`. -/
def cvM00 (pts : List Pt) : ℚ :=
  if a00 pts = 0 then 0 else |(a00 pts : ℚ)| / 2

/-- `cv2.moments(...)["m10"]`, carrying the same sign flip as `m00`. -/
def cvM10 (pts : List Pt) : ℚ :=
  if a00 pts = 0 then 0
  else (if 0 < a00 pts then (a10 pts : ℚ) else -(a10 pts : ℚ)) / 6

/-- `cv2.moments(...)["m01"]`, carrying the same sign flip as `m00`. -/
def cvM01 (pts : List Pt) : ℚ :=
  if a00 pts = 0 then 0
  else (if 0 < a00 pts then (a01 pts : ℚ) else -(a01 pts : ℚ)) / 6

/-- `AnnotationTool.calculate_centroid`: zero-area fallback `(0, 0)`,
otherwise `(int(m10/m00), int(m01/m00))`. -/
def calculate_centroid (pts : List Pt) : Pt :=
  if cvM00 pts = 0 then (0, 0)
  else (ratTrunc (cvM10 pts / cvM00 pts), ratTrunc (cvM01 pts / cvM00 pts))

/-- The signed area moment `m00` of the spec's "standard polygon moment
formulas" (no sign normalisation). -/
def m00s (pts : List Pt) : ℚ := (a00 pts : ℚ) / 2

/-- The signed first moment `m10`. -/
def m10s (pts : List Pt) : ℚ := (a10 pts : ℚ) / 6

/-- The signed first moment `m01`. -/
def m01s (pts : List Pt) : ℚ := (a01 pts : ℚ) / 6

/-! ## Zoom controller: `ZoomableLabel.set_zoom` (main.py:53-55) and
`AnnotationTool.adjust_zoom` (main.py:247-253) -/

/-- `ZoomableLabel.set_zoom`: the stored zoom is `max(10, min(500, value))`. -/
def set_zoom (value : Int) : Int := max 10 (min 500 value)

/-- `AnnotationTool.adjust_zoom`: step by `±20`, clamp with
`min(500, max(10, ...))`, then store through `set_zoom`. Returns the zoom
value stored after the call. -/
def adjust_zoom (zoom : Int) (zoom_in : Bool) : Int :=
  set_zoom (min 500 (max 10 (zoom + (if zoom_in then 20 else -20))))

/-! ## Claims about the centroid engine and the zoom controller -/

lemma m00s_ne_zero_iff (pts : List Pt) : m00s pts ≠ 0 ↔ a00 pts ≠ 0 := by
  unfold m00s
  constructor
  · intro h ha
    exact h (by simp [ha])
  · intro h hq
    have : (a00 pts : ℚ) = 0 := by
      field_simp at hq
      exact_mod_cast hq
    exact h (by exact_mod_cast this)

lemma cv_ratio_eq (pts : List Pt) (h : a00 pts ≠ 0) :
    cvM10 pts / cvM00 pts = m10s pts / m00s pts ∧
    cvM01 pts / cvM00 pts = m01s pts / m00s pts := by
  have hq : (a00 pts : ℚ) ≠ 0 := by exact_mod_cast h
  rcases lt_or_gt_of_ne h with hneg | hpos
  · have habs : |(a00 pts : ℚ)| = -(a00 pts : ℚ) := by
      rw [abs_of_neg]
      exact_mod_cast hneg
    have hnotpos : ¬ 0 < a00 pts := by omega
    constructor
    · unfold cvM10 cvM00 m10s m00s
      rw [if_neg h, if_neg h, if_neg hnotpos, habs]
      rw [show -(a10 pts : ℚ) / 6 = -((a10 pts : ℚ) / 6) by ring,
        show -(a00 pts : ℚ) / 2 = -((a00 pts : ℚ) / 2) by ring]
      exact neg_div_neg_eq _ _
    · unfold cvM01 cvM00 m01s m00s
      rw [if_neg h, if_neg h, if_neg hnotpos, habs]
      rw [show -(a01 pts : ℚ) / 6 = -((a01 pts : ℚ) / 6) by ring,
        show -(a00 pts : ℚ) / 2 = -((a00 pts : ℚ) / 2) by ring]
      exact neg_div_neg_eq _ _
  · have habs : |(a00 pts : ℚ)| = (a00 pts : ℚ) := by
      rw [abs_of_pos]
      exact_mod_cast hpos
    constructor
    · unfold cvM10 cvM00 m10s m00s
      rw [if_neg h, if_neg h, if_pos hpos, habs]
    · unfold cvM01 cvM00 m01s m00s
      rw [if_neg h, if_neg h, if_pos hpos, habs]

lemma cvM00_ne_zero (pts : List Pt) (h : a00 pts ≠ 0) : cvM00 pts ≠ 0 := by
  have hq : (a00 pts : ℚ) ≠ 0 := by exact_mod_cast h
  unfold cvM00
  rw [if_neg h]
  positivity

/-- C1: for a vertex sequence of at least three integer points whose signed
area moment `m00` is nonzero, `calculate_centroid` returns the first-order
area-moment centroid `(m10/m00, m01/m00)` with each coordinate truncated
toward zero. -/
theorem centroid_truncated_moment_ratio (pts : List Pt)
    (h3 : 3 ≤ pts.length) (h0 : m00s pts ≠ 0) :
    calculate_centroid pts =
      (ratTrunc (m10s pts / m00s pts), ratTrunc (m01s pts / m00s pts)) := by
  have ha : a00 pts ≠ 0 := (m00s_ne_zero_iff pts).mp h0
  have hr := cv_ratio_eq pts ha
  unfold calculate_centroid
  rw [if_neg (cvM00_ne_zero pts ha), hr.1, hr.2]

/-- The square from the spec's test property 3. -/
def sqPts : List Pt := [(0, 0), (10, 0), (10, 10), (0, 10)]

/-- C1 witness: the square `[(0,0),(10,0),(10,10),(0,10)]` has nonzero signed
area and its computed centroid is `(5, 5)`. -/
theorem centroid_truncated_moment_ratio_witness :
    3 ≤ sqPts.length ∧ m00s sqPts ≠ 0 ∧ calculate_centroid sqPts = (5, 5) := by
  have ha0 : a00 sqPts = 200 := by decide
  have ha10 : a10 sqPts = 3000 := by decide
  have ha01 : a01 sqPts = 3000 := by decide
  have hm : m00s sqPts ≠ 0 := by
    rw [m00s_ne_zero_iff, ha0]
    decide
  refine ⟨by decide, hm, ?_⟩
  rw [centroid_truncated_moment_ratio sqPts (by decide) hm]
  unfold m00s m10s m01s
  rw [ha0, ha10, ha01]
  norm_num [ratTrunc]

/-- C2: whenever the signed area moment `m00` is zero, `calculate_centroid`
returns the deliberate fallback `(0, 0)` (total function, no failure). -/
theorem centroid_zero_area_fallback (pts : List Pt) (h0 : m00s pts = 0) :
    calculate_centroid pts = (0, 0) := by
  have ha : a00 pts = 0 := by
    by_contra hne
    exact ((m00s_ne_zero_iff pts).mpr hne) h0
  unfold calculate_centroid cvM00
  rw [if_pos ha]
  simp

/-- The collinear points from the spec's test property 4. -/
def collinearPts : List Pt := [(0, 0), (5, 0), (10, 0)]

/-- C2 witness: the collinear sequence `[(0,0),(5,0),(10,0)]` has zero signed
area and yields the fallback `(0, 0)`. -/
theorem centroid_zero_area_fallback_witness :
    m00s collinearPts = 0 ∧ calculate_centroid collinearPts = (0, 0) := by
  have h0 : m00s collinearPts = 0 := by
    have : a00 collinearPts = 0 := by decide
    unfold m00s
    rw [this]
    norm_num
  exact ⟨h0, centroid_zero_area_fallback collinearPts h0⟩

/-- C7: the zoom percentage is clamped to `[10, 500]` by `set_zoom`
(`set_zoom 1000 = 500`, `set_zoom (-5) = 10`), and `adjust_zoom` adds or
subtracts the fixed increment 20 and then clamps, so its result always lies
in `[10, 500]` and stepping up from 500 stays at 500. -/
theorem zoom_clamped_10_500 :
    (∀ v : Int, 10 ≤ set_zoom v ∧ set_zoom v ≤ 500) ∧
    set_zoom 1000 = 500 ∧ set_zoom (-5) = 10 ∧
    (∀ (z : Int) (b : Bool),
      adjust_zoom z b = max 10 (min 500 (z + (if b then 20 else -20)))) ∧
    (∀ (z : Int) (b : Bool), 10 ≤ adjust_zoom z b ∧ adjust_zoom z b ≤ 500) ∧
    adjust_zoom 500 true = 500 := by
  refine ⟨?_, by decide, by decide, ?_, ?_, by decide⟩
  · intro v
    unfold set_zoom
    omega
  · intro z b
    cases b <;> unfold adjust_zoom set_zoom <;> omega
  · intro z b
    cases b <;> unfold adjust_zoom set_zoom <;> omega

/-! ## Coordinate mapper: `ZoomableLabel.handle_click` (main.py:38-51) and the
display rectangle computed in `AnnotationTool.update_display` (main.py:320-343) -/

/-- The display inputs of `update_display`: the original image dimensions, the
label (viewport) dimensions, and the zoom percentage. -/
structure Display where
  original_width : Nat
  original_height : Nat
  label_width : Nat
  label_height : Nat
  zoom : Int
deriving DecidableEq

/-- `self.scale_factor = min(label.width/width, label.height/height)`. -/
def fit_scale (d : Display) : ℚ :=
  min ((d.label_width : ℚ) / (d.original_width : ℚ))
    ((d.label_height : ℚ) / (d.original_height : ℚ))

/-- `zoom_factor = self.image_label._zoom / 100`. -/
def zoom_factor (d : Display) : ℚ := (d.zoom : ℚ) / 100

/-- `scaled_width = int(width * self.scale_factor * zoom_factor)`. -/
def scaled_width (d : Display) : Int :=
  ratTrunc ((d.original_width : ℚ) * fit_scale d * zoom_factor d)

/-- `scaled_height = int(height * self.scale_factor * zoom_factor)`. -/
def scaled_height (d : Display) : Int :=
  ratTrunc ((d.original_height : ℚ) * fit_scale d * zoom_factor d)

/-- A `QRectF`: origin and extent with real coordinates. -/
structure ImageRect where
  x : ℚ
  y : ℚ
  w : ℚ
  h : ℚ
deriving DecidableEq

/-- `self.image_label._image_rect = QRectF(offset_x, offset_y, scaled_width,
scaled_height)` with `offset = (label_size - scaled_size) / 2`. -/
def image_rect (d : Display) : ImageRect :=
  { x := ((d.label_width : ℚ) - (scaled_width d : ℚ)) / 2
    y := ((d.label_height : ℚ) - (scaled_height d : ℚ)) / 2
    w := (scaled_width d : ℚ)
    h := (scaled_height d : ℚ) }

/-- Qt's `QRectF::contains(QPointF)`: an empty extent contains nothing, and
otherwise the rectangle is CLOSED — points on every edge are contained. -/
def qrect_contains (r : ImageRect) (px py : ℚ) : Bool :=
  let l := if r.w < 0 then r.x + r.w else r.x
  let rt := if r.w < 0 then r.x else r.x + r.w
  if l = rt then false
  else if px < l ∨ rt < px then false
  else
    let t := if r.h < 0 then r.y + r.h else r.y
    let b := if r.h < 0 then r.y else r.y + r.h
    if t = b then false
    else if py < t ∨ b < py then false
    else true

/-- The screen-to-original conversion of `ZoomableLabel.handle_click`:
reject points outside `_image_rect`, otherwise take the fractional position
inside the rectangle and truncate into original pixel coordinates. -/
def displayToOriginal (d : Display) (r : ImageRect) (px py : ℚ) : Option Pt :=
  if qrect_contains r px py then
    some (ratTrunc ((px - r.x) / r.w * (d.original_width : ℚ)),
      ratTrunc ((py - r.y) / r.h * (d.original_height : ℚ)))
  else none

/-- `handle_click` receives an integer `QPoint` from the mouse event. -/
def handle_click (d : Display) (r : ImageRect) (px py : Int) : Option Pt :=
  displayToOriginal d r (px : ℚ) (py : ℚ)

/-- A left click appends a vertex only when `handle_click` resolves the
screen point (`add_polygon_point` is called inside the accepted branch). -/
def on_left_click (poly : List Pt) (d : Display) (px py : Int) : List Pt :=
  match handle_click d (image_rect d) px py with
  | none => poly
  | some v => poly ++ [v]

/-- The original-to-display mapping used when drawing overlays
(main.py:349-353): `int(x * self.scale_factor * zoom_factor)`, no offset. -/
def originalToDisplay (d : Display) (p : Pt) : Pt :=
  (ratTrunc ((p.1 : ℚ) * fit_scale d * zoom_factor d),
    ratTrunc ((p.2 : ℚ) * fit_scale d * zoom_factor d))

/-- The round trip of spec property 1: map an original point to display
coordinates, add the rectangle offset, and convert back through
`handle_click`'s logic. -/
def roundTrip (d : Display) (p : Pt) : Option Pt :=
  displayToOriginal d (image_rect d)
    (((originalToDisplay d p).1 : ℚ) + (image_rect d).x)
    (((originalToDisplay d p).2 : ℚ) + (image_rect d).y)

/-! ### Basic facts about truncation and the rectangle test -/

lemma ratTrunc_eq_floor {q : ℚ} (h : 0 ≤ q) : ratTrunc q = ⌊q⌋ := if_pos h

lemma ratTrunc_nonneg {q : ℚ} (h : 0 ≤ q) : 0 ≤ ratTrunc q := by
  rw [ratTrunc_eq_floor h]
  exact Int.floor_nonneg.mpr h

lemma ratTrunc_le_int {q : ℚ} {n : Int} (h0 : 0 ≤ q) (h : q ≤ (n : ℚ)) :
    ratTrunc q ≤ n := by
  rw [ratTrunc_eq_floor h0]
  exact (Int.floor_le_floor h).trans_eq (Int.floor_intCast n)

lemma fit_scale_nonneg (d : Display) : 0 ≤ fit_scale d :=
  le_min (by positivity) (by positivity)

lemma zoom_factor_nonneg (d : Display) (hz : 0 ≤ d.zoom) : 0 ≤ zoom_factor d := by
  unfold zoom_factor
  have : (0 : ℚ) ≤ (d.zoom : ℚ) := by exact_mod_cast hz
  positivity

lemma scaled_width_nonneg (d : Display) (hz : 0 ≤ d.zoom) : 0 ≤ scaled_width d :=
  ratTrunc_nonneg
    (mul_nonneg (mul_nonneg (Nat.cast_nonneg _) (fit_scale_nonneg d))
      (zoom_factor_nonneg d hz))

lemma scaled_height_nonneg (d : Display) (hz : 0 ≤ d.zoom) : 0 ≤ scaled_height d :=
  ratTrunc_nonneg
    (mul_nonneg (mul_nonneg (Nat.cast_nonneg _) (fit_scale_nonneg d))
      (zoom_factor_nonneg d hz))

/-- For a rectangle with nonnegative extents, `QRectF.contains` is the closed
rectangle test together with nonemptiness of both extents. -/
lemma qrect_contains_iff (r : ImageRect) (hw : 0 ≤ r.w) (hh : 0 ≤ r.h)
    (px py : ℚ) :
    qrect_contains r px py = true ↔
      0 < r.w ∧ 0 < r.h ∧ r.x ≤ px ∧ px ≤ r.x + r.w ∧
        r.y ≤ py ∧ py ≤ r.y + r.h := by
  have hnw : ¬ r.w < 0 := not_lt.mpr hw
  have hnh : ¬ r.h < 0 := not_lt.mpr hh
  simp only [qrect_contains, if_neg hnw, if_neg hnh]
  constructor
  · intro hc
    split_ifs at hc with h1 h2 h3 h4
    push_neg at h2 h4
    have hw0 : 0 < r.w := by
      rcases lt_or_eq_of_le hw with h | h
      · exact h
      · exact absurd (by linarith : r.x = r.x + r.w) h1
    have hh0 : 0 < r.h := by
      rcases lt_or_eq_of_le hh with h | h
      · exact h
      · exact absurd (by linarith : r.y = r.y + r.h) h3
    exact ⟨hw0, hh0, h2.1, h2.2, h4.1, h4.2⟩
  · rintro ⟨hw0, hh0, h1, h2, h3, h4⟩
    rw [if_neg (by intro h; linarith), if_neg (by push_neg; exact ⟨h1, h2⟩),
      if_neg (by intro h; linarith), if_neg (by push_neg; exact ⟨h3, h4⟩)]

/-! ### Claims C4 (click bounds) -/

/-- The display of the C4 boundary example: a 10×10 image in a 100×100 label
at zoom 50 percent, giving `_image_rect = (25, 25, 50, 50)`. -/
def exD : Display := ⟨10, 10, 100, 100, 50⟩

lemma fit_scale_exD : fit_scale exD = 10 := by
  unfold fit_scale exD
  norm_num

lemma scaled_width_exD : scaled_width exD = 50 := by
  have h : ((exD.original_width : ℚ)) * fit_scale exD * zoom_factor exD = 50 := by
    rw [fit_scale_exD]
    unfold zoom_factor exD
    norm_num
  unfold scaled_width
  rw [h]
  unfold ratTrunc
  norm_num

lemma scaled_height_exD : scaled_height exD = 50 := by
  have h : ((exD.original_height : ℚ)) * fit_scale exD * zoom_factor exD = 50 := by
    rw [fit_scale_exD]
    unfold zoom_factor exD
    norm_num
  unfold scaled_height
  rw [h]
  unfold ratTrunc
  norm_num

lemma image_rect_exD : image_rect exD = ImageRect.mk 25 25 50 50 := by
  unfold image_rect
  rw [scaled_width_exD, scaled_height_exD]
  norm_num [exD]

/-- C4 counterexample: with `_image_rect = (25, 25, 50, 50)` and a 10×10
image, the click `(75, 50)` lies exactly on the rectangle's right edge —
outside the claimed half-open rectangle — yet `handle_click` converts it to
`(10, 5)` and appends it, and the resulting `x = 10` is not `< 10`. -/
theorem click_half_open_cex :
    (image_rect exD).x + (image_rect exD).w ≤ ((75 : Int) : ℚ) ∧
    handle_click exD (image_rect exD) 75 50 = some (10, 5) ∧
    on_left_click [] exD 75 50 = [(10, 5)] ∧
    ¬ ((10 : Int) < (exD.original_width : Int)) := by
  have hc : qrect_contains (ImageRect.mk 25 25 50 50)
      (((75 : Int) : ℚ)) (((50 : Int) : ℚ)) = true := by
    rw [qrect_contains_iff _ (by norm_num) (by norm_num)]
    push_cast
    norm_num
  have hclick : handle_click exD (image_rect exD) 75 50 = some (10, 5) := by
    unfold handle_click displayToOriginal
    rw [image_rect_exD, if_pos hc]
    unfold exD
    push_cast
    norm_num [ratTrunc]
  refine ⟨?_, hclick, ?_, by decide⟩
  · rw [image_rect_exD]
    push_cast
    norm_num
  · unfold on_left_click
    rw [hclick]
    rfl

/-- C4 (amended): for a nonnegative zoom, `handle_click` returns `none` (and
no vertex is appended) for every integer click point outside the CLOSED
rendered-image rectangle, and every accepted click maps into
`[0, originalWidth] × [0, originalHeight]` (the right/bottom edge included —
the half-open version of this claim fails, see the counterexample). -/
theorem click_closed_rect_bounds (d : Display) (px py : Int) (hz : 0 ≤ d.zoom) :
    (((px : ℚ) < (image_rect d).x ∨ (image_rect d).x + (image_rect d).w < (px : ℚ) ∨
        (py : ℚ) < (image_rect d).y ∨ (image_rect d).y + (image_rect d).h < (py : ℚ)) →
      handle_click d (image_rect d) px py = none ∧
      ∀ poly : List Pt, on_left_click poly d px py = poly) ∧
    ∀ v : Pt, handle_click d (image_rect d) px py = some v →
      0 ≤ v.1 ∧ v.1 ≤ (d.original_width : Int) ∧
      0 ≤ v.2 ∧ v.2 ≤ (d.original_height : Int) := by
  have hw : (0 : ℚ) ≤ (image_rect d).w := by
    simp only [image_rect]
    exact_mod_cast scaled_width_nonneg d hz
  have hh : (0 : ℚ) ≤ (image_rect d).h := by
    simp only [image_rect]
    exact_mod_cast scaled_height_nonneg d hz
  constructor
  · intro hout
    have hcf : qrect_contains (image_rect d) (px : ℚ) (py : ℚ) = false := by
      rcases Bool.eq_false_or_eq_true
          (qrect_contains (image_rect d) (px : ℚ) (py : ℚ)) with h | h
      · rcases (qrect_contains_iff _ hw hh _ _).mp h with ⟨_, _, h1, h2, h3, h4⟩
        rcases hout with ho | ho | ho | ho <;> linarith
      · exact h
    have hnone : handle_click d (image_rect d) px py = none := by
      unfold handle_click displayToOriginal
      rw [hcf]
      simp
    exact ⟨hnone, fun poly => by unfold on_left_click; rw [hnone]⟩
  · intro v hv
    unfold handle_click displayToOriginal at hv
    rcases Bool.eq_false_or_eq_true
        (qrect_contains (image_rect d) (px : ℚ) (py : ℚ)) with h | hfalse
    case inr =>
      rw [hfalse] at hv
      simp at hv
    · rcases (qrect_contains_iff _ hw hh _ _).mp h with ⟨hw0, hh0, h1, h2, h3, h4⟩
      rw [if_pos h] at hv
      have hv' := Option.some.inj hv
      have hxq : (0 : ℚ) ≤ ((px : ℚ) - (image_rect d).x) / (image_rect d).w :=
        div_nonneg (by linarith) (le_of_lt hw0)
      have hxle : ((px : ℚ) - (image_rect d).x) / (image_rect d).w ≤ 1 :=
        (div_le_one hw0).mpr (by linarith)
      have hyq : (0 : ℚ) ≤ ((py : ℚ) - (image_rect d).y) / (image_rect d).h :=
        div_nonneg (by linarith) (le_of_lt hh0)
      have hyle : ((py : ℚ) - (image_rect d).y) / (image_rect d).h ≤ 1 :=
        (div_le_one hh0).mpr (by linarith)
      have hx0 : (0 : ℚ) ≤
          ((px : ℚ) - (image_rect d).x) / (image_rect d).w * (d.original_width : ℚ) :=
        mul_nonneg hxq (Nat.cast_nonneg _)
      have hxW : ((px : ℚ) - (image_rect d).x) / (image_rect d).w * (d.original_width : ℚ) ≤
          ((d.original_width : Int) : ℚ) := by
        push_cast
        exact mul_le_of_le_one_left (Nat.cast_nonneg _) hxle
      have hy0 : (0 : ℚ) ≤
          ((py : ℚ) - (image_rect d).y) / (image_rect d).h * (d.original_height : ℚ) :=
        mul_nonneg hyq (Nat.cast_nonneg _)
      have hyW : ((py : ℚ) - (image_rect d).y) / (image_rect d).h * (d.original_height : ℚ) ≤
          ((d.original_height : Int) : ℚ) := by
        push_cast
        exact mul_le_of_le_one_left (Nat.cast_nonneg _) hyle
      rw [← hv']
      exact ⟨ratTrunc_nonneg hx0, ratTrunc_le_int hx0 hxW,
        ratTrunc_nonneg hy0, ratTrunc_le_int hy0 hyW⟩

/-- C4 witness for the amended theorem: at the example display a click at
`(200, 50)` (right of the closed rectangle) is rejected and appends nothing,
and the accepted click `(30, 50)` maps inside the inclusive bounds. -/
theorem click_closed_rect_bounds_witness :
    0 ≤ exD.zoom ∧
    handle_click exD (image_rect exD) 200 50 = none ∧
    on_left_click [] exD 200 50 = [] := by
  have h := click_closed_rect_bounds exD 200 50 (by decide)
  have hout : ((200 : Int) : ℚ) < (image_rect exD).x ∨
      (image_rect exD).x + (image_rect exD).w < ((200 : Int) : ℚ) ∨
      ((50 : Int) : ℚ) < (image_rect exD).y ∨
      (image_rect exD).y + (image_rect exD).h < ((50 : Int) : ℚ) := by
    right
    left
    rw [image_rect_exD]
    push_cast
    norm_num
  exact ⟨by decide, (h.1 hout).1, (h.1 hout).2 []⟩

/-! ### Claim C5 (mapping round trip) -/

lemma scaled_width_floor (d : Display) (h : 0 ≤ fit_scale d * zoom_factor d) :
    scaled_width d = ⌊(d.original_width : ℚ) * (fit_scale d * zoom_factor d)⌋ := by
  unfold scaled_width
  rw [mul_assoc]
  exact ratTrunc_eq_floor (mul_nonneg (Nat.cast_nonneg _) h)

lemma scaled_height_floor (d : Display) (h : 0 ≤ fit_scale d * zoom_factor d) :
    scaled_height d = ⌊(d.original_height : ℚ) * (fit_scale d * zoom_factor d)⌋ := by
  unfold scaled_height
  rw [mul_assoc]
  exact ratTrunc_eq_floor (mul_nonneg (Nat.cast_nonneg _) h)

lemma originalToDisplay_floor (d : Display) (p : Pt) (hx0 : 0 ≤ p.1) (hy0 : 0 ≤ p.2)
    (h : 0 ≤ fit_scale d * zoom_factor d) :
    originalToDisplay d p =
      (⌊(p.1 : ℚ) * (fit_scale d * zoom_factor d)⌋,
        ⌊(p.2 : ℚ) * (fit_scale d * zoom_factor d)⌋) := by
  unfold originalToDisplay
  rw [mul_assoc, mul_assoc]
  rw [ratTrunc_eq_floor (mul_nonneg (by exact_mod_cast hx0) h),
    ratTrunc_eq_floor (mul_nonneg (by exact_mod_cast hy0) h)]

/-- The per-axis arithmetic core of the round trip at effective scale
`s ≥ 1`: truncating `p·s`, rescaling by `w / ⌊w·s⌋`, and truncating again
lands in `[p − 1, p]`. -/
lemma floor_scale_roundtrip (w p : Int) (s : ℚ) (hs : 1 ≤ s)
    (hp0 : 0 ≤ p) (hp : p < w) :
    0 ≤ ⌊(p : ℚ) * s⌋ ∧ ⌊(p : ℚ) * s⌋ ≤ ⌊(w : ℚ) * s⌋ ∧ 1 ≤ ⌊(w : ℚ) * s⌋ ∧
    p - 1 ≤ ⌊(⌊(p : ℚ) * s⌋ : ℚ) / (⌊(w : ℚ) * s⌋ : ℚ) * (w : ℚ)⌋ ∧
    ⌊(⌊(p : ℚ) * s⌋ : ℚ) / (⌊(w : ℚ) * s⌋ : ℚ) * (w : ℚ)⌋ ≤ p := by
  have hs0 : (0 : ℚ) < s := lt_of_lt_of_le one_pos hs
  have hpq : (0 : ℚ) ≤ (p : ℚ) := by exact_mod_cast hp0
  have hp1w : (p : ℚ) + 1 ≤ (w : ℚ) := by exact_mod_cast hp
  have hw1 : (1 : ℚ) ≤ (w : ℚ) := by linarith
  have hd0 : 0 ≤ ⌊(p : ℚ) * s⌋ := Int.floor_nonneg.mpr (mul_nonneg hpq (le_of_lt hs0))
  have hdW : ⌊(p : ℚ) * s⌋ ≤ ⌊(w : ℚ) * s⌋ :=
    Int.floor_le_floor (mul_le_mul_of_nonneg_right (by linarith) (le_of_lt hs0))
  have hW1 : 1 ≤ ⌊(w : ℚ) * s⌋ := by
    rw [Int.le_floor]
    push_cast
    nlinarith
  have hdq0 : (0 : ℚ) ≤ (⌊(p : ℚ) * s⌋ : ℚ) := by exact_mod_cast hd0
  have hWq1 : (1 : ℚ) ≤ (⌊(w : ℚ) * s⌋ : ℚ) := by exact_mod_cast hW1
  have hWq0 : (0 : ℚ) < (⌊(w : ℚ) * s⌋ : ℚ) := lt_of_lt_of_le one_pos hWq1
  have hdle : (⌊(p : ℚ) * s⌋ : ℚ) ≤ (p : ℚ) * s := Int.floor_le _
  have hdgt : (p : ℚ) * s - 1 < (⌊(p : ℚ) * s⌋ : ℚ) := Int.sub_one_lt_floor _
  have hWle : (⌊(w : ℚ) * s⌋ : ℚ) ≤ (w : ℚ) * s := Int.floor_le _
  have hWgt : (w : ℚ) * s - 1 < (⌊(w : ℚ) * s⌋ : ℚ) := Int.sub_one_lt_floor _
  have hwne : (w : ℚ) ≠ 0 := by linarith
  have hw_ws : (w : ℚ) ≤ (w : ℚ) * s := le_mul_of_one_le_right (by linarith) hs
  refine ⟨hd0, hdW, hW1, ?_, ?_⟩
  · rw [Int.le_floor]
    have h1 : (⌊(p : ℚ) * s⌋ : ℚ) / ((w : ℚ) * s) ≤
        (⌊(p : ℚ) * s⌋ : ℚ) / (⌊(w : ℚ) * s⌋ : ℚ) :=
      div_le_div_of_nonneg_left hdq0 hWq0 hWle
    have h2 : (⌊(p : ℚ) * s⌋ : ℚ) / ((w : ℚ) * s) * (w : ℚ) =
        (⌊(p : ℚ) * s⌋ : ℚ) / s := by
      field_simp
      ring
    have h3 : (p : ℚ) - 1 ≤ (⌊(p : ℚ) * s⌋ : ℚ) / s := by
      rw [le_div_iff hs0]
      nlinarith
    have h4 : (⌊(p : ℚ) * s⌋ : ℚ) / ((w : ℚ) * s) * (w : ℚ) ≤
        (⌊(p : ℚ) * s⌋ : ℚ) / (⌊(w : ℚ) * s⌋ : ℚ) * (w : ℚ) :=
      mul_le_mul_of_nonneg_right h1 (by linarith)
    push_cast
    calc (p : ℚ) - 1 ≤ (⌊(p : ℚ) * s⌋ : ℚ) / s := h3
      _ = (⌊(p : ℚ) * s⌋ : ℚ) / ((w : ℚ) * s) * (w : ℚ) := h2.symm
      _ ≤ _ := h4
  · have hlt : (⌊(p : ℚ) * s⌋ : ℚ) / (⌊(w : ℚ) * s⌋ : ℚ) * (w : ℚ) < (p : ℚ) + 1 := by
      rw [div_mul_eq_mul_div, div_lt_iff hWq0]
      have hA : (⌊(p : ℚ) * s⌋ : ℚ) * (w : ℚ) ≤ (p : ℚ) * s * (w : ℚ) :=
        mul_le_mul_of_nonneg_right hdle (by linarith)
      have hB : (p : ℚ) * s * (w : ℚ) ≤ ((p : ℚ) + 1) * ((w : ℚ) * s - 1) := by
        nlinarith
      have hC : ((p : ℚ) + 1) * ((w : ℚ) * s - 1) <
          ((p : ℚ) + 1) * (⌊(w : ℚ) * s⌋ : ℚ) := by
        apply mul_lt_mul_of_pos_left hWgt
        linarith
      linarith
    have hfl : ⌊(⌊(p : ℚ) * s⌋ : ℚ) / (⌊(w : ℚ) * s⌋ : ℚ) * (w : ℚ)⌋ < p + 1 :=
      Int.floor_lt.mpr (by push_cast; exact hlt)
    omega

/-- The display of the C5 counterexample: a 99×99 image in a 33×33 label at
zoom 100 percent — effective scale 1/3, `_image_rect = (0, 0, 33, 33)`. -/
def exC : Display := ⟨99, 99, 33, 33, 100⟩

lemma fit_scale_exC : fit_scale exC = 1 / 3 := by
  unfold fit_scale exC
  norm_num

lemma scaled_width_exC : scaled_width exC = 33 := by
  have h : ((exC.original_width : ℚ)) * fit_scale exC * zoom_factor exC = 33 := by
    rw [fit_scale_exC]
    unfold zoom_factor exC
    norm_num
  unfold scaled_width
  rw [h]
  unfold ratTrunc
  norm_num

lemma scaled_height_exC : scaled_height exC = 33 := by
  have h : ((exC.original_height : ℚ)) * fit_scale exC * zoom_factor exC = 33 := by
    rw [fit_scale_exC]
    unfold zoom_factor exC
    norm_num
  unfold scaled_height
  rw [h]
  unfold ratTrunc
  norm_num

lemma image_rect_exC : image_rect exC = ImageRect.mk 0 0 33 33 := by
  unfold image_rect
  rw [scaled_width_exC, scaled_height_exC]
  norm_num [exC]

/-- C5 counterexample: at effective scale 1/3 (99×99 image, 33×33 label,
zoom 100), the original point `(5, 5)` — strictly inside the image bounds —
round-trips to `(3, 3)`, two pixels away, refuting the within-1-pixel claim
for general valid transforms. -/
theorem round_trip_cex :
    (0 ≤ (5 : Int) ∧ (5 : Int) < (exC.original_width : Int) ∧
      0 ≤ (5 : Int) ∧ (5 : Int) < (exC.original_height : Int)) ∧
    roundTrip exC (5, 5) = some (3, 3) ∧
    ¬ (|(3 : Int) - 5| ≤ 1) := by
  refine ⟨by decide, ?_, by decide⟩
  have hod : originalToDisplay exC (5, 5) = (1, 1) := by
    unfold originalToDisplay
    rw [fit_scale_exC]
    unfold zoom_factor exC ratTrunc
    norm_num
  have hc : qrect_contains (ImageRect.mk 0 0 33 33)
      (((1 : Int) : ℚ) + 0) (((1 : Int) : ℚ) + 0) = true := by
    rw [qrect_contains_iff _ (by norm_num) (by norm_num)]
    push_cast
    norm_num
  unfold roundTrip displayToOriginal
  rw [hod, image_rect_exC]
  rw [if_pos hc]
  unfold exC ratTrunc
  push_cast
  norm_num

/-- C5 (amended): when the effective scale `fitScale · zoom/100` is at least
1 (no downscaling), the round trip through `originalToDisplay`, the offset,
and `handle_click`'s conversion returns a point within 1 pixel of the
original in each coordinate.  (For scales below 1 the error can exceed 1
pixel — see the counterexample.) -/
theorem round_trip_within_one (d : Display) (p : Pt)
    (hs : 1 ≤ fit_scale d * zoom_factor d)
    (hx0 : 0 ≤ p.1) (hx : p.1 < (d.original_width : Int))
    (hy0 : 0 ≤ p.2) (hy : p.2 < (d.original_height : Int)) :
    ∃ q : Pt, roundTrip d p = some q ∧ |q.1 - p.1| ≤ 1 ∧ |q.2 - p.2| ≤ 1 := by
  have hsnn : (0 : ℚ) ≤ fit_scale d * zoom_factor d := le_trans zero_le_one hs
  obtain ⟨hd0x, hdWx, hW1x, hlox, hhix⟩ :=
    floor_scale_roundtrip (d.original_width : Int) p.1
      (fit_scale d * zoom_factor d) hs hx0 hx
  obtain ⟨hd0y, hdWy, hW1y, hloy, hhiy⟩ :=
    floor_scale_roundtrip (d.original_height : Int) p.2
      (fit_scale d * zoom_factor d) hs hy0 hy
  push_cast at hd0x hdWx hW1x hlox hhix hd0y hdWy hW1y hloy hhiy
  have hrw : (image_rect d).w =
      (⌊(d.original_width : ℚ) * (fit_scale d * zoom_factor d)⌋ : ℚ) := by
    simp only [image_rect]
    rw [scaled_width_floor d hsnn]
  have hrh : (image_rect d).h =
      (⌊(d.original_height : ℚ) * (fit_scale d * zoom_factor d)⌋ : ℚ) := by
    simp only [image_rect]
    rw [scaled_height_floor d hsnn]
  have hd0xq : (0 : ℚ) ≤ (⌊(p.1 : ℚ) * (fit_scale d * zoom_factor d)⌋ : ℚ) := by
    exact_mod_cast hd0x
  have hd0yq : (0 : ℚ) ≤ (⌊(p.2 : ℚ) * (fit_scale d * zoom_factor d)⌋ : ℚ) := by
    exact_mod_cast hd0y
  have hdWxq : (⌊(p.1 : ℚ) * (fit_scale d * zoom_factor d)⌋ : ℚ) ≤
      (⌊(d.original_width : ℚ) * (fit_scale d * zoom_factor d)⌋ : ℚ) := by
    exact_mod_cast hdWx
  have hdWyq : (⌊(p.2 : ℚ) * (fit_scale d * zoom_factor d)⌋ : ℚ) ≤
      (⌊(d.original_height : ℚ) * (fit_scale d * zoom_factor d)⌋ : ℚ) := by
    exact_mod_cast hdWy
  have hW1xq : (1 : ℚ) ≤
      (⌊(d.original_width : ℚ) * (fit_scale d * zoom_factor d)⌋ : ℚ) := by
    exact_mod_cast hW1x
  have hW1yq : (1 : ℚ) ≤
      (⌊(d.original_height : ℚ) * (fit_scale d * zoom_factor d)⌋ : ℚ) := by
    exact_mod_cast hW1y
  have hcont : qrect_contains (image_rect d)
      ((⌊(p.1 : ℚ) * (fit_scale d * zoom_factor d)⌋ : ℚ) + (image_rect d).x)
      ((⌊(p.2 : ℚ) * (fit_scale d * zoom_factor d)⌋ : ℚ) + (image_rect d).y) = true := by
    rw [qrect_contains_iff _ (by rw [hrw]; linarith) (by rw [hrh]; linarith)]
    refine ⟨by rw [hrw]; linarith, by rw [hrh]; linarith,
      by linarith, ?_, by linarith, ?_⟩
    · rw [hrw]
      linarith
    · rw [hrh]
      linarith
  have hrt : roundTrip d p = some
      (⌊(⌊(p.1 : ℚ) * (fit_scale d * zoom_factor d)⌋ : ℚ) /
          (⌊(d.original_width : ℚ) * (fit_scale d * zoom_factor d)⌋ : ℚ) *
          (d.original_width : ℚ)⌋,
        ⌊(⌊(p.2 : ℚ) * (fit_scale d * zoom_factor d)⌋ : ℚ) /
          (⌊(d.original_height : ℚ) * (fit_scale d * zoom_factor d)⌋ : ℚ) *
          (d.original_height : ℚ)⌋) := by
    unfold roundTrip displayToOriginal
    rw [originalToDisplay_floor d p hx0 hy0 hsnn]
    rw [if_pos hcont]
    have e1 : ((⌊(p.1 : ℚ) * (fit_scale d * zoom_factor d)⌋ : ℚ) + (image_rect d).x -
        (image_rect d).x) / (image_rect d).w * (d.original_width : ℚ) =
        (⌊(p.1 : ℚ) * (fit_scale d * zoom_factor d)⌋ : ℚ) /
          (⌊(d.original_width : ℚ) * (fit_scale d * zoom_factor d)⌋ : ℚ) *
          (d.original_width : ℚ) := by
      rw [hrw]
      ring_nf
    have e2 : ((⌊(p.2 : ℚ) * (fit_scale d * zoom_factor d)⌋ : ℚ) + (image_rect d).y -
        (image_rect d).y) / (image_rect d).h * (d.original_height : ℚ) =
        (⌊(p.2 : ℚ) * (fit_scale d * zoom_factor d)⌋ : ℚ) /
          (⌊(d.original_height : ℚ) * (fit_scale d * zoom_factor d)⌋ : ℚ) *
          (d.original_height : ℚ) := by
      rw [hrh]
      ring_nf
    rw [e1, e2]
    rw [ratTrunc_eq_floor (mul_nonneg (div_nonneg hd0xq (by linarith)) (Nat.cast_nonneg _)),
      ratTrunc_eq_floor (mul_nonneg (div_nonneg hd0yq (by linarith)) (Nat.cast_nonneg _))]
  refine ⟨_, hrt, ?_, ?_⟩
  · rw [abs_le]
    constructor <;> omega
  · rw [abs_le]
    constructor <;> omega

/-- C5 witness for the amended theorem: the example display (10×10 image in
a 100×100 label, zoom 50 percent) has effective scale 5 ≥ 1, so the point
`(7, 3)` round-trips within one pixel. -/
theorem round_trip_within_one_witness :
    1 ≤ fit_scale exD * zoom_factor exD ∧
    (0 : Int) ≤ 7 ∧ (7 : Int) < (exD.original_width : Int) ∧
    (0 : Int) ≤ 3 ∧ (3 : Int) < (exD.original_height : Int) ∧
    ∃ q : Pt, roundTrip exD (7, 3) = some q ∧ |q.1 - 7| ≤ 1 ∧ |q.2 - 3| ≤ 1 := by
  have hs : 1 ≤ fit_scale exD * zoom_factor exD := by
    rw [fit_scale_exD]
    unfold zoom_factor exD
    norm_num
  exact ⟨hs, by decide, by decide, by decide, by decide,
    round_trip_within_one exD (7, 3) hs (by decide) (by decide) (by decide) (by decide)⟩

/-! ## Annotation state machine: `AnnotationTool` state, `add_polygon_point`
(main.py:385-388), `finish_polygon` (main.py:400-421), `update_marked_count`
(main.py:241-245), `prev_image`/`next_image` (main.py:429-439) -/

/-- `os.path.basename`: the part of the path after the last `/`. -/
def basename (p : String) : String :=
  String.mk ((p.toList.reverse.takeWhile fun c => c != '/').reverse)

/-- The mutable fields of `AnnotationTool` that the core logic touches.
`annots` models `self.annotations`, an insertion-ordered Python dict from
basename to the list under its `"centroids"` key. -/
structure ToolState where
  image_paths : List String
  current_index : Nat
  annots : List (String × List Pt)
  current_polygon : List Pt
  current_centroid : Option Pt
  marked_count : Nat
  auto_advance : Bool
deriving DecidableEq

/-- The store update inside `finish_polygon` (main.py:409-412): create the
entry if the key is absent (at the end, matching dict insertion order), then
append the centroid to the entry's list. -/
def record (store : List (String × List Pt)) (k : String) (c : Pt) :
    List (String × List Pt) :=
  if store.any fun e => e.1 == k then
    store.map fun e => if e.1 == k then (e.1, e.2 ++ [c]) else e
  else store ++ [(k, [c])]

/-- `update_marked_count`: the number of keys whose centroid list is
nonempty (`len([f for f in keys if len(centroids) > 0])`). -/
def update_marked_count (store : List (String × List Pt)) : Nat :=
  (store.filter fun e => 0 < e.2.length).length

/-- `add_polygon_point`: append the vertex to the pending polygon. -/
def add_polygon_point (s : ToolState) (v : Pt) : ToolState :=
  { s with current_polygon := s.current_polygon ++ [v] }

/-- The observable outcome of a `finish_polygon` call. -/
inductive FinishOutcome where
  | insufficientVertices
  | finished (c : Pt)
deriving DecidableEq

/-- `finish_polygon`: with fewer than 3 pending vertices it only shows the
warning dialog (`insufficientVertices`) and returns; otherwise it computes
the centroid, records it under the current image's basename, bumps the
counter, clears the pending polygon, and schedules the auto-advance timer
iff `auto_advance` is set (the returned `Bool`).  `none` models the
`IndexError` Python would raise if `current_index` were out of range. -/
def finish_polygon (s : ToolState) : Option (ToolState × FinishOutcome × Bool) :=
  if s.current_polygon.length < 3 then
    some (s, FinishOutcome.insufficientVertices, false)
  else
    match s.image_paths.get? s.current_index with
    | none => none
    | some path =>
      let c := calculate_centroid s.current_polygon
      some ({ s with
                current_centroid := some c,
                annots := record s.annots (basename path) c,
                marked_count := s.marked_count + 1,
                current_polygon := [] },
        FinishOutcome.finished c, s.auto_advance)

/-- `load_current_image`: guarded by `0 <= index < len`; on a load it clears
the pending polygon and centroid preview (decode success is assumed — image
I/O is external).  The `Bool` reports whether a load was performed. -/
def load_current_image (s : ToolState) : ToolState × Bool :=
  if s.current_index < s.image_paths.length then
    ({ s with current_polygon := [], current_centroid := none }, true)
  else (s, false)

/-- `prev_image`: a no-op on an empty list, otherwise clamp the decrement at
0 (`max(0, i-1)`, which is Nat truncated subtraction here) and reload. -/
def prev_image (s : ToolState) : ToolState × Bool :=
  if s.image_paths.isEmpty then (s, false)
  else load_current_image { s with current_index := s.current_index - 1 }

/-- `next_image`: a no-op on an empty list, otherwise clamp the increment at
`len - 1` and reload. -/
def next_image (s : ToolState) : ToolState × Bool :=
  if s.image_paths.isEmpty then (s, false)
  else load_current_image
    { s with current_index := min (s.image_paths.length - 1) (s.current_index + 1) }

/-! ### Claims C3, C8, C9, C10 -/

lemma finish_lt3 (s : ToolState) (h : s.current_polygon.length < 3) :
    finish_polygon s = some (s, FinishOutcome.insufficientVertices, false) := by
  unfold finish_polygon
  rw [if_pos h]

/-- C3: finishing with fewer than 3 pending vertices leaves the whole state
(in particular the pending sequence) untouched and signals
`insufficientVertices`; from a 2-vertex state, adding one vertex and
finishing again succeeds — it computes the centroid of the 3 vertices,
records it under the current image's basename, and clears the pending
sequence. -/
theorem finish_too_few_then_retry (s : ToolState) (v : Pt) (path : String)
    (h2 : s.current_polygon.length = 2)
    (hp : s.image_paths.get? s.current_index = some path) :
    (∀ t : ToolState, t.current_polygon.length < 3 →
      finish_polygon t = some (t, FinishOutcome.insufficientVertices, false)) ∧
    finish_polygon s = some (s, FinishOutcome.insufficientVertices, false) ∧
    ∃ s2, finish_polygon (add_polygon_point s v) =
        some (s2,
          FinishOutcome.finished (calculate_centroid (s.current_polygon ++ [v])),
          s.auto_advance) ∧
      s2.current_polygon = [] ∧
      s2.annots = record s.annots (basename path)
        (calculate_centroid (s.current_polygon ++ [v])) := by
  refine ⟨finish_lt3, finish_lt3 s (by omega), ?_⟩
  refine ⟨⟨s.image_paths, s.current_index,
    record s.annots (basename path) (calculate_centroid (s.current_polygon ++ [v])),
    [], some (calculate_centroid (s.current_polygon ++ [v])),
    s.marked_count + 1, s.auto_advance⟩, ?_, rfl, rfl⟩
  unfold finish_polygon add_polygon_point
  dsimp only
  rw [if_neg (by simp [h2]), hp]

/-- The 2-vertex state used to witness C3 and C10. -/
def exS2 : ToolState :=
  ⟨["dir/a.png", "dir/b.png"], 0, [], [(0, 0), (4, 0)], none, 0, true⟩

/-- C3 witness: the concrete 2-vertex state is rejected unchanged, and after
adding `(0, 4)` the retry succeeds and records the triangle's centroid. -/
theorem finish_too_few_then_retry_witness :
    exS2.current_polygon.length = 2 ∧
    exS2.image_paths.get? exS2.current_index = some "dir/a.png" ∧
    finish_polygon exS2 = some (exS2, FinishOutcome.insufficientVertices, false) ∧
    ∃ s2, finish_polygon (add_polygon_point exS2 (0, 4)) =
        some (s2,
          FinishOutcome.finished (calculate_centroid (exS2.current_polygon ++ [(0, 4)])),
          exS2.auto_advance) ∧
      s2.current_polygon = [] ∧
      s2.annots = record exS2.annots (basename "dir/a.png")
        (calculate_centroid (exS2.current_polygon ++ [(0, 4)])) := by
  have h := finish_too_few_then_retry exS2 (0, 4) "dir/a.png" (by decide) (by decide)
  exact ⟨by decide, by decide, h.2.1, h.2.2⟩

/-- C10: a finish with fewer than 3 pending vertices is atomic beyond the
pending sequence — the store, the centroid preview, and the image index are
unchanged, and no auto-advance timer is scheduled. -/
theorem finish_insufficient_atomic (s : ToolState)
    (h : s.current_polygon.length < 3) :
    ∃ s2 r b, finish_polygon s = some (s2, r, b) ∧
      s2.annots = s.annots ∧
      s2.current_centroid = s.current_centroid ∧
      s2.current_index = s.current_index ∧
      r = FinishOutcome.insufficientVertices ∧ b = false :=
  ⟨s, FinishOutcome.insufficientVertices, false, finish_lt3 s h,
    rfl, rfl, rfl, rfl, rfl⟩

/-- C10 witness: the concrete 2-vertex state. -/
theorem finish_insufficient_atomic_witness :
    ∃ s2 r b, finish_polygon exS2 = some (s2, r, b) ∧
      s2.annots = exS2.annots ∧
      s2.current_centroid = exS2.current_centroid ∧
      s2.current_index = exS2.current_index ∧
      r = FinishOutcome.insufficientVertices ∧ b = false :=
  finish_insufficient_atomic exS2 (by decide)

/-- C8: recording into a store without the key creates exactly one entry at
the end; recording again appends to that entry (no deduplication, insertion
order kept, other entries untouched), and the marked count — the number of
keys with a nonempty centroid list — counts the image once. -/
theorem record_appends_no_dedup (store : List (String × List Pt)) (k : String)
    (c1 c2 : Pt) (hk : store.any (fun e => e.1 == k) = false) :
    record store k c1 = store ++ [(k, [c1])] ∧
    record (record store k c1) k c2 = store ++ [(k, [c1, c2])] ∧
    update_marked_count (record (record store k c1) k c2) =
      update_marked_count store + 1 := by
  have hmem : ∀ e ∈ store, (e.1 == k) = false := by
    intro e he
    rcases List.any_eq_false.mp hk e he |> fun h => Bool.eq_false_iff.mpr h with h
    exact h
  have h1 : record store k c1 = store ++ [(k, [c1])] := by
    unfold record
    rw [hk]
    simp
  have h2 : record (store ++ [(k, [c1])]) k c2 = store ++ [(k, [c1, c2])] := by
    unfold record
    have hany : (store ++ [(k, [c1])]).any (fun e => e.1 == k) = true := by
      simp [List.any_append]
    rw [hany]
    simp only [if_pos]
    rw [List.map_append]
    congr 1
    · conv_rhs => rw [← List.map_id store]
      apply List.map_congr_left
      intro e he
      simp [hmem e he]
    · simp
  have h3 : update_marked_count (store ++ [(k, [c1, c2])]) =
      update_marked_count store + 1 := by
    unfold update_marked_count
    rw [List.filter_append, List.length_append]
    simp
  exact ⟨h1, by rw [h1]; exact h2, by rw [h1, h2]; exact h3⟩

/-- C8 witness: two records under `"a.png"` on a store holding only
`"z.png"` yield a single `"a.png"` entry with both centroids in order, and
the marked count grows by exactly one. -/
theorem record_appends_no_dedup_witness :
    ([(("z.png" : String), [((0 : Int), (0 : Int))])].any (fun e => e.1 == "a.png")
      = false) ∧
    record [("z.png", [(0, 0)])] "a.png" (1, 2) =
      [("z.png", [(0, 0)]), ("a.png", [(1, 2)])] ∧
    record (record [("z.png", [(0, 0)])] "a.png" (1, 2)) "a.png" (3, 4) =
      [("z.png", [(0, 0)]), ("a.png", [(1, 2), (3, 4)])] ∧
    update_marked_count
        (record (record [("z.png", [(0, 0)])] "a.png" (1, 2)) "a.png" (3, 4)) =
      update_marked_count [("z.png", [(0, 0)])] + 1 := by
  have h := record_appends_no_dedup [("z.png", [(0, 0)])] "a.png" (1, 2) (3, 4)
    (by decide)
  exact ⟨by decide, h.1, h.2.1, h.2.2⟩

/-- C9: with an empty image list, both `prev_image` and `next_image` are
complete no-ops — the state (in particular the index) is unchanged and no
image load is attempted. -/
theorem nav_noop_on_empty_list (s : ToolState) (h : s.image_paths = []) :
    prev_image s = (s, false) ∧ next_image s = (s, false) := by
  unfold prev_image next_image
  constructor <;> simp [h]

/-- The empty-session state used to witness C9. -/
def exS0 : ToolState := ⟨[], 0, [], [], none, 0, true⟩

/-- C9 witness: the concrete empty-list state. -/
theorem nav_noop_on_empty_list_witness :
    prev_image exS0 = (exS0, false) ∧ next_image exS0 = (exS0, false) :=
  nav_noop_on_empty_list exS0 rfl

/-! ## CSV export: `AnnotationTool.save_centroids` (main.py:440-468) -/

/-- Python `csv` QUOTE_MINIMAL: a field is quoted iff it contains the
delimiter, the quote character, or a line-terminator character. -/
def csv_needs_quote (f : String) : Bool :=
  f.toList.any fun c => c == ',' || c == '"' || c == '\r' || c == '\n'

/-- One serialised CSV field under QUOTE_MINIMAL (quote doubling inside
quoted fields). -/
def csv_field (f : String) : String :=
  if csv_needs_quote f then "\"" ++ (f.replace "\"" "\"\"") ++ "\"" else f

/-- `csv.writer.writerow`: serialise the stringified fields joined by the
delimiter. -/
def writerow (fields : List String) : String :=
  String.intercalate "," (fields.map csv_field)

/-- The rows `save_centroids` hands to the CSV writer: the header, then the
nested loop `for filename, data in annotations.items(): for cx, cy in
data["centroids"]`.  Python stringifies the integers with `str`. -/
def save_rows (store : List (String × List Pt)) : List (List String) :=
  ["filename", "centroid_x", "centroid_y"] ::
    store.bind fun e => e.2.map fun c => [e.1, toString c.1, toString c.2]

/-- The serialised lines of the export file. -/
def save_output (store : List (String × List Pt)) : List String :=
  (save_rows store).map writerow

/-- A store reachable by a sequence of `record` events starting empty
(exactly how `finish_polygon` populates `self.annotations`). -/
def recordAll (evs : List (String × Pt)) : List (String × List Pt) :=
  evs.foldl (fun acc e => record acc e.1 e.2) []

/-- First-occurrence deduplication of a key list. -/
def dedupFirst : List String → List String
  | [] => []
  | k :: l => k :: dedupFirst (l.filter fun k2 => k2 != k)
termination_by l => l.length
decreasing_by
  simp only [List.length_cons]
  exact Nat.lt_succ_of_le (List.length_filter_le _ _)

/-- The store layout the spec's export section describes, stated from the
spec's words: one entry per distinct image key in first-occurrence
(entry-creation) order, holding that key's centroids in insertion order. -/
def spec_store (evs : List (String × Pt)) : List (String × List Pt) :=
  (dedupFirst (evs.map Prod.fst)).map
    fun k => (k, (evs.filter fun x => x.1 == k).map Prod.snd)

lemma dedupFirst_nil : dedupFirst [] = [] := by
  rw [dedupFirst.eq_def]

lemma dedupFirst_cons (k : String) (l : List String) :
    dedupFirst (k :: l) = k :: dedupFirst (l.filter fun k2 => k2 != k) := by
  rw [dedupFirst.eq_def]

lemma beq_swap (a b : String) : (a == b) = (b == a) := by
  by_cases h : a = b
  · subst h
    rfl
  · have h1 : (a == b) = false := by simpa using h
    have h2 : (b == a) = false := by simpa using (Ne.symm h)
    rw [h1, h2]

lemma dedupFirst_subset_aux :
    ∀ (n : Nat) (l : List String), l.length ≤ n → ∀ a ∈ dedupFirst l, a ∈ l := by
  intro n
  induction n with
  | zero =>
    intro l hl a ha
    cases l with
    | nil => simpa [dedupFirst_nil] using ha
    | cons k t => simp at hl
  | succ n ih =>
    intro l hl a ha
    cases l with
    | nil => simpa [dedupFirst_nil] using ha
    | cons k t =>
      rw [dedupFirst_cons] at ha
      rcases List.mem_cons.mp ha with h | h
      · simp [h]
      · have hlen : (t.filter fun k2 => k2 != k).length ≤ n := by
          have := List.length_filter_le (fun k2 => k2 != k) t
          simp only [List.length_cons] at hl
          omega
        exact List.mem_cons_of_mem _
          (List.mem_of_mem_filter (ih _ hlen a h))

lemma dedupFirst_subset {l : List String} {a : String} (h : a ∈ dedupFirst l) :
    a ∈ l :=
  dedupFirst_subset_aux l.length l le_rfl a h

/-- How a sequence of `record` events transforms an arbitrary store: every
existing entry receives its matching centroids appended in event order, and
the new keys are appended behind, in first-occurrence order, each carrying
its centroids in event order. -/
lemma foldl_record_model (evs : List (String × Pt)) :
    ∀ st : List (String × List Pt),
      evs.foldl (fun acc e => record acc e.1 e.2) st =
        st.map (fun e => (e.1, e.2 ++ (evs.filter fun x => x.1 == e.1).map Prod.snd)) ++
        (dedupFirst ((evs.map Prod.fst).filter
            fun k2 => !(st.any fun e => e.1 == k2))).map
          fun k2 => (k2, (evs.filter fun x => x.1 == k2).map Prod.snd) := by
  induction evs with
  | nil =>
    intro st
    simp [dedupFirst_nil]
  | cons hd rest ih =>
    intro st
    obtain ⟨k, c⟩ := hd
    rw [List.foldl_cons, ih (record st k c)]
    by_cases hk : (st.any fun e => e.1 == k) = true
    · -- the key already exists: `record` appends in place
      have hrec : record st k c =
          st.map fun e => if e.1 == k then (e.1, e.2 ++ [c]) else e := by
        unfold record
        rw [if_pos hk]
      have hany : ∀ k2 : String,
          ((record st k c).any fun e => e.1 == k2) = (st.any fun e => e.1 == k2) := by
        intro k2
        rw [hrec, List.any_map]
        congr 1
        funext e
        by_cases h : (e.1 == k) = true <;> simp [Function.comp, h]
      have hpred : (fun k2 => !((record st k c).any fun e => e.1 == k2)) =
          (fun k2 => !(st.any fun e => e.1 == k2)) :=
        funext fun k2 => by rw [hany k2]
      rw [hpred, hrec, List.map_map]
      have hfun : ((fun e : String × List Pt =>
            (e.1, e.2 ++ (rest.filter fun x => x.1 == e.1).map Prod.snd)) ∘
          fun e : String × List Pt => if e.1 == k then (e.1, e.2 ++ [c]) else e) =
          fun e : String × List Pt =>
            (e.1, e.2 ++ (((k, c) :: rest).filter fun x => x.1 == e.1).map Prod.snd) := by
        funext e
        by_cases h : (e.1 == k) = true
        · have hk2 : (k == e.1) = true := by rw [beq_swap]; exact h
          simp [Function.comp, h, List.filter_cons, hk2]
        · have hk2 : (k == e.1) = false := by
            rw [beq_swap]
            exact Bool.eq_false_iff.mpr h
          simp [Function.comp, h, hk2, List.filter_cons]
      rw [hfun]
      have hfilt : ((((k, c) :: rest).map Prod.fst).filter
            fun k2 => !(st.any fun e => e.1 == k2)) =
          ((rest.map Prod.fst).filter fun k2 => !(st.any fun e => e.1 == k2)) := by
        rw [List.map_cons]
        rw [List.filter_cons_of_neg]
        simp [hk]
      rw [hfilt]
      congr 1
      apply List.map_congr_left
      intro k2 hmem
      have h1 : k2 ∈ (rest.map Prod.fst).filter
          (fun k2 => !(st.any fun e => e.1 == k2)) := dedupFirst_subset hmem
      have h2 : (st.any fun e => e.1 == k2) = false := by
        have := List.of_mem_filter h1
        simpa using this
      have hne : (k == k2) = false := by
        by_cases h : k = k2
        · subst h
          rw [hk] at h2
          exact absurd h2 (by simp)
        · simpa using h
      simp [List.filter_cons, hne]
    · -- new key: `record` appends a fresh entry at the end
      have hkf : (st.any fun e => e.1 == k) = false := Bool.eq_false_iff.mpr hk
      have hrec : record st k c = st ++ [(k, [c])] := by
        unfold record
        rw [if_neg hk]
      have hmem : ∀ e ∈ st, (e.1 == k) = false := by
        intro e he
        have := List.any_eq_false.mp hkf e he
        simpa using this
      have hpred : (fun k2 => !((record st k c).any fun e => e.1 == k2)) =
          (fun k2 => (k2 != k) && !(st.any fun e => e.1 == k2)) := by
        funext k2
        rw [hrec, List.any_append]
        simp only [List.any_cons, List.any_nil, Bool.or_false, Bool.not_or]
        rw [show ((k, [c]).1 == k2) = (k == k2) from rfl, beq_swap k k2]
        rw [show (!(k2 == k)) = (k2 != k) from rfl]
        exact Bool.and_comm _ _
      rw [hpred, hrec, List.map_append]
      have hfilt : ((((k, c) :: rest).map Prod.fst).filter
            fun k2 => !(st.any fun e => e.1 == k2)) =
          k :: ((rest.map Prod.fst).filter fun k2 => !(st.any fun e => e.1 == k2)) := by
        rw [List.map_cons]
        rw [List.filter_cons_of_pos]
        simp [hkf]
      rw [hfilt, dedupFirst_cons, List.filter_filter]
      have hhead : ((k : String), (c : Pt) ::
            (rest.filter fun x => x.1 == k).map Prod.snd) =
          (k, (((k, c) :: rest).filter fun x => x.1 == k).map Prod.snd) := by
        rw [List.filter_cons_of_pos]
        · simp
        · simp
      have hstmap : (st.map fun e =>
            (e.1, e.2 ++ (rest.filter fun x => x.1 == e.1).map Prod.snd)) =
          st.map fun e =>
            (e.1, e.2 ++ (((k, c) :: rest).filter fun x => x.1 == e.1).map Prod.snd) := by
        apply List.map_congr_left
        intro e he
        have h1 : (k == e.1) = false := by
          rw [beq_swap]
          exact hmem e he
        rw [List.filter_cons_of_neg]
        simp [h1]
      have htail : ((dedupFirst ((rest.map Prod.fst).filter
            fun a => (a != k) && !(st.any fun e => e.1 == a))).map
          fun k2 => (k2, (rest.filter fun x => x.1 == k2).map Prod.snd)) =
          (dedupFirst ((rest.map Prod.fst).filter
            fun a => (a != k) && !(st.any fun e => e.1 == a))).map
          fun k2 => (k2, (((k, c) :: rest).filter fun x => x.1 == k2).map Prod.snd) := by
        apply List.map_congr_left
        intro k2 hmem2
        have h1 := List.of_mem_filter (dedupFirst_subset hmem2)
        simp only [Bool.and_eq_true] at h1
        have h3 : (k == k2) = false := by
          rw [beq_swap]
          simpa [bne] using h1.1
        rw [List.filter_cons_of_neg]
        simp [h3]
      rw [hstmap]
      simp only [List.map_cons, List.map_nil]
      rw [List.append_assoc]
      simp only [List.cons_append, List.nil_append]
      rw [hhead, htail]

/-- C6: the export rows are the header followed by exactly one row
`basename, x, y` per recorded centroid; for every store reachable by
`record` events the entries stand in first-occurrence (creation) order, each
holding its centroids in insertion order, and the concrete store
`{a.png: [(1,2)], b.png: [(3,4),(5,6)]}` serialises to exactly
`a.png,1,2` / `b.png,3,4` / `b.png,5,6` after the header. -/
theorem export_rows_in_creation_order :
    (∀ store : List (String × List Pt),
      save_rows store = ["filename", "centroid_x", "centroid_y"] ::
        store.bind fun e => e.2.map fun c => [e.1, toString c.1, toString c.2]) ∧
    (∀ evs : List (String × Pt), recordAll evs = spec_store evs) ∧
    save_output (recordAll
        [("a.png", ((1 : Int), (2 : Int))), ("b.png", (3, 4)), ("b.png", (5, 6))]) =
      ["filename,centroid_x,centroid_y", "a.png,1,2", "b.png,3,4", "b.png,5,6"] := by
  refine ⟨fun store => rfl, ?_, ?_⟩
  · intro evs
    unfold recordAll spec_store
    rw [foldl_record_model evs []]
    simp
  · decide

end Marking
